import Mathlib

/-!
# Verification of the venvcache multi-process cache coordination layer

Shallow embedding of the Rust sources (`src/file_lock.rs`, `src/journal.rs`,
`src/venv.rs`, `src/main.rs`) of the `crockeo/venvcache` repository, together
with proofs settling the specification claims about them.

External effects (the kernel's `fcntl` syscall, the SQLite engine, the child
interpreter, the filesystem) are modelled explicitly: syscall outcomes and
child-process outcomes are parameters, SQLite's table together with its two
queries is modelled as a Lean function on an association list, and wall-clock
time is an input.  Machine words in SHA-256 are `Nat` reduced modulo `2 ^ 32`.
-/

namespace Venvcache

/-! ## `src/file_lock.rs` — the lock primitive

`apply_lock` issues a single blocking `fcntl(F_SETLKW)` call whose `l_type`
is one of `F_RDLCK`, `F_WRLCK`, `F_UNLCK`.  A `ReadLock`/`WriteLock` token
owns `file : Option (&mut File)`; `upgrade`/`downgrade` call `self.file.take()`
(leaving `None` behind) and construct the other token with a single
`apply_lock` call; `Drop` issues `apply_lock(..., Unlock)` only when `file`
is still `Some`. -/

/-- `enum LockOperation { Read, Write, Unlock }` from `file_lock.rs`. -/
inductive LockOperation
  | read
  | write
  | unlock
deriving DecidableEq, Repr

/-- The process's advisory-lock state on the lock file, as the kernel sees it:
no lock, a shared (`F_RDLCK`) lock, or an exclusive (`F_WRLCK`) lock. -/
inductive LockState
  | unlocked
  | shared
  | exclusive
deriving DecidableEq, Repr

/-- Effect of one `apply_lock(file, operation)` call on the process's lock
state.  `F_SETLKW` either succeeds, replacing the currently held lock with
one of the requested type in a single syscall, or fails, leaving the held
lock untouched (`ok = false` models the `result == -1` branch, which returns
the OS error without changing lock state). -/
def apply_lock (s : LockState) (operation : LockOperation) (ok : Bool) : LockState :=
  if ok then
    match operation with
    | .read => .shared
    | .write => .exclusive
    | .unlock => .unlocked
  else s

/-- A `ReadLock<'a>`/`WriteLock<'a>` token: `file : Option<&'a mut File>`.
`none` means the token was consumed (`self.file.take()`). -/
structure LockToken where
  file : Option Unit
deriving DecidableEq, Repr

/-- The `fcntl` operations issued by `impl Drop for ReadLock`/`WriteLock`:
`apply_lock(file, Unlock)` when `file` is still `Some`, nothing otherwise. -/
def LockToken.dropOps (t : LockToken) : List LockOperation :=
  match t.file with
  | some _ => [.unlock]
  | none => []

/-- `ReadLock::upgrade` (`file_lock.rs:46-50`): `self.file.take()` consumes
the token, then `WriteLock::new(file)` issues a single
`apply_lock(file, Write)`.  Returns the consumed read token, the list of
`fcntl` operations issued, and the new write token. -/
def ReadLock.upgrade (t : LockToken) : LockToken × List LockOperation × LockToken :=
  (⟨none⟩, [.write], ⟨t.file⟩)

/-- `WriteLock::downgrade` (`file_lock.rs:73-77`): `self.file.take()` consumes
the token, then `ReadLock::new(file)` issues a single
`apply_lock(file, Read)`. -/
def WriteLock.downgrade (t : LockToken) : LockToken × List LockOperation × LockToken :=
  (⟨none⟩, [.read], ⟨t.file⟩)

/-- The sequence of lock states the process passes through while a list of
`apply_lock` calls executes, starting from `s`, with `oks` giving each
syscall's success.  Includes the initial state. -/
def lockTrace (s : LockState) : List LockOperation → List Bool → List LockState
  | [], _ => [s]
  | op :: ops, oks =>
      s :: lockTrace (apply_lock s op (oks.headD true)) ops (oks.tail)

/-! ## `src/venv.rs` — the environment manager -/

/-- `enum Error { MissingVenv }` from `venv.rs:9-13`. -/
inductive VenvError
  | missingVenv
deriving DecidableEq, Repr

/-- Outcome of `Command::new(venv_python).args(args).status()`: the child
exited with a code, was terminated by a signal (`status.code() == None`),
or could not be spawned at all (`Err` from `status()`). -/
inductive ChildOutcome
  | exited (code : Nat)
  | signaled
  | spawnFailure
deriving DecidableEq, Repr

/-- How a call to `VenvManager::run` ends.  The Rust signature declares
`anyhow::Result<ExitStatus>`, so a normal return carrying an exit status is a
possible shape (`returnsStatus`); the other shapes are returning an error to
the caller and terminating the whole process via `std::process::exit`. -/
inductive RunResult
  | returnsStatus (code : Nat)
  | returnsErr (e : VenvError)
  | processExit (code : Nat)
deriving DecidableEq, Repr

/-- `VenvManager::run` (`venv.rs:68-90`).  `venv_python_exists` is whether
`self.path/bin/python` exists; `child` is the outcome of running it.
The body: if the executable is missing, return `Err(Error::MissingVenv)`;
otherwise run the child and `std::process::exit` with its code, `127` if it
was terminated by a signal, or `1` if it could not be spawned. -/
def VenvManager.run (venv_python_exists : Bool) (child : ChildOutcome) : RunResult :=
  if !venv_python_exists then
    .returnsErr .missingVenv
  else
    match child with
    | .exited code => .processExit code
    | .signaled => .processExit 127
    | .spawnFailure => .processExit 1

/-- On-disk state of one environment, as `VenvManager` observes it:
whether `<path>/bin/python` exists and whether the directory itself exists. -/
structure VenvState where
  venv_python_exists : Bool
  dir_exists : Bool
deriving DecidableEq, Repr

/-- How a call to `VenvManager::delete` (`venv.rs:63-66`) ends.  The body is
`todo!()`, which unconditionally panics. -/
inductive DeleteResult
  | ok
  | panicked (msg : String)
deriving DecidableEq, Repr

/-- `VenvManager::delete` (`venv.rs:63-66`): logs, then `todo!()` — it panics
on every input and mutates nothing. -/
def VenvManager.delete (st : VenvState) : DeleteResult × VenvState :=
  (.panicked "not yet implemented", st)

/-- Events observable during `VenvManager::create` (`venv.rs:29-61`):
acquiring/releasing the write lock, the two external builder steps
(`python -m venv` and `pip install -r`), and filesystem writes. -/
inductive CreateEvent
  | acquireWrite
  | venvBuilderInvoked
  | writeRequirements
  | pipInstallInvoked
  | releaseWrite
deriving DecidableEq, Repr

/-- `VenvManager::create` (`venv.rs:29-61`): take the write lock; if
`<path>/bin/python` exists, return `Ok(())` at once (no builder step);
otherwise create the directory, run `python -m venv <path>` (on success
the environment's `bin/python` exists), write the `.requirements` file, and
run `pip install -r`.  `venvOk`/`pipOk` are the external steps' outcomes;
a failing step makes `create` return an error, leaving the partial state. -/
def VenvManager.create (st : VenvState) (venvOk pipOk : Bool) :
    VenvState × List CreateEvent × Bool :=
  if st.venv_python_exists then
    (st, [.acquireWrite, .releaseWrite], true)
  else
    let st₁ : VenvState := { st with dir_exists := true }
    if venvOk then
      let st₂ : VenvState := { st₁ with venv_python_exists := true }
      if pipOk then
        (st₂, [.acquireWrite, .venvBuilderInvoked, .writeRequirements,
               .pipInstallInvoked, .releaseWrite], true)
      else
        (st₂, [.acquireWrite, .venvBuilderInvoked, .writeRequirements,
               .pipInstallInvoked, .releaseWrite], false)
    else
      (st₁, [.acquireWrite, .venvBuilderInvoked, .releaseWrite], false)

/-! ## `src/journal.rs` — the usage journal

The SQLite table `resources (fingerprint VARCHAR PRIMARY KEY, last_used DATETIME)`
is modelled as an association list of `(fingerprint, last_used)` rows;
timestamps are `Nat` and `chrono::Utc::now()` is an input `now`.  The two SQL
statements of `record_usage` are modelled directly: the upsert
(`INSERT ... ON CONFLICT(fingerprint) DO UPDATE SET last_used=?`) and the
window query (`ROW_NUMBER() OVER (ORDER BY last_used DESC)`, keep rows with
`row_num > maximum_resources`, `ORDER BY last_used ASC`, then read column 0). -/

/-- One row of the `resources` table. -/
abbrev Resource := String × Nat

/-- The `Journal` struct: the table contents and `maximum_resources`. -/
structure Journal where
  resources : List Resource
  maximum_resources : Nat
deriving DecidableEq, Repr

/-- `INSERT INTO resources(fingerprint, last_used) VALUES (?, ?)
ON CONFLICT(fingerprint) DO UPDATE SET last_used=?`: update the row whose
primary key matches, or append a fresh row. -/
def upsert (rs : List Resource) (fingerprint : String) (now : Nat) : List Resource :=
  if rs.any (fun r => r.1 == fingerprint) then
    rs.map (fun r => if r.1 == fingerprint then (r.1, now) else r)
  else
    rs ++ [(fingerprint, now)]

/-- `ORDER BY last_used DESC` comparison on rows. -/
def byLastUsedDesc (a b : Resource) : Prop := b.2 ≤ a.2

/-- `ORDER BY last_used ASC` comparison on rows. -/
def byLastUsedAsc (a b : Resource) : Prop := a.2 ≤ b.2

instance : DecidableRel byLastUsedDesc := fun a b => Nat.decLe b.2 a.2

instance : DecidableRel byLastUsedAsc := fun a b => Nat.decLe a.2 b.2

instance : IsTotal Resource byLastUsedDesc := ⟨fun a b => Nat.le_total b.2 a.2⟩

instance : IsTrans Resource byLastUsedDesc := ⟨fun _ _ _ h₁ h₂ => Nat.le_trans h₂ h₁⟩

instance : IsTotal Resource byLastUsedAsc := ⟨fun a b => Nat.le_total a.2 b.2⟩

instance : IsTrans Resource byLastUsedAsc := ⟨fun _ _ _ h₁ h₂ => Nat.le_trans h₁ h₂⟩

/-- The window query of `record_usage` (`journal.rs:55-68`), at row level:
number the rows of the table ordered by `last_used` descending (row numbers
are `1`-based, so row `(i, r)` of `List.enum` has `row_num = i + 1`), keep
those with `row_num > maximum`, and order the result by `last_used`
ascending. -/
def expiredRecords (maximum : Nat) (rs : List Resource) : List Resource :=
  let ranked := (List.insertionSort byLastUsedDesc rs).enum
  let beyond := ranked.filter (fun p => decide (maximum < p.1 + 1))
  List.insertionSort byLastUsedAsc (beyond.map Prod.snd)

/-- `Journal::record_usage` (`journal.rs:38-75`): upsert the fingerprint with
timestamp `now`, then return the fingerprint column of the expired rows. -/
def Journal.record_usage (j : Journal) (fingerprint : String) (now : Nat) :
    Journal × List String :=
  let rs := upsert j.resources fingerprint now
  ({ j with resources := rs },
   (expiredRecords j.maximum_resources rs).map Prod.fst)

/-- `Journal::mark_deleted` (`journal.rs:78-85`):
`DELETE FROM resources WHERE fingerprint = ?`. -/
def Journal.mark_deleted (j : Journal) (fingerprint : String) : Journal :=
  { j with resources := j.resources.filter (fun r => !(r.1 == fingerprint)) }

/-- Rank of a row under `ORDER BY last_used DESC` with distinct timestamps:
one more than the number of rows used more recently. -/
def rankIn (rs : List Resource) (r : Resource) : Nat :=
  rs.countP (fun x => decide (r.2 < x.2)) + 1

/-- The fingerprint column of the table. -/
def keysOf (rs : List Resource) : List String := rs.map Prod.fst

/-- The timestamp column of the table. -/
def stampsOf (rs : List Resource) : List Nat := rs.map Prod.snd

/-- A client-visible journal operation, for reasoning about call sequences. -/
inductive JournalOp
  | record (fingerprint : String) (now : Nat)
  | mark (fingerprint : String)
deriving DecidableEq, Repr

/-- Run a sequence of journal operations, collecting every evictable list
returned by the `record` calls. -/
def applyOps (j : Journal) : List JournalOp → Journal × List (List String)
  | [] => (j, [])
  | .record f now :: ops =>
      ((applyOps (j.record_usage f now).1 ops).1,
       (j.record_usage f now).2 :: (applyOps (j.record_usage f now).1 ops).2)
  | .mark f :: ops => applyOps (j.mark_deleted f) ops

/-! ### Helper lemmas for the journal proofs -/

theorem fst_ge_of_mem_enumFrom {α : Type _} {p : Nat × α} {l : List α} {n : Nat}
    (h : p ∈ List.enumFrom n l) : n ≤ p.1 := by
  induction l generalizing n with
  | nil => exact absurd h (List.not_mem_nil p)
  | cons a tl ih =>
    rcases List.mem_cons.mp h with rfl | h
    · exact Nat.le_refl n
    · exact Nat.le_of_succ_le (ih h)

theorem map_snd_enumFrom {α : Type _} (l : List α) (n : Nat) :
    (List.enumFrom n l).map Prod.snd = l := by
  induction l generalizing n with
  | nil => rfl
  | cons a tl ih => simp [List.enumFrom, ih]

/-- Keeping the rows of a `1`-based enumeration whose row number exceeds `C`
is the same as dropping the first `C` rows. -/
theorem enumFrom_filter_map_snd {α : Type _} (C : Nat) :
    ∀ (l : List α) (n : Nat),
      ((List.enumFrom n l).filter (fun p => decide (C + n < p.1 + 1))).map Prod.snd =
        l.drop C := by
  induction C with
  | zero =>
    intro l n
    have hall : ∀ p ∈ List.enumFrom n l, (decide (0 + n < p.1 + 1)) = true := by
      intro p hp
      have := fst_ge_of_mem_enumFrom hp
      simp only [decide_eq_true_eq]
      omega
    rw [List.filter_eq_self.mpr hall, map_snd_enumFrom, List.drop_zero]
  | succ c ih =>
    intro l n
    cases l with
    | nil => rfl
    | cons a tl =>
      have hcond : (decide (c + 1 + n < n + 1)) = false := by
        simp only [decide_eq_false_iff_not]
        omega
      show ((List.filter _ ((n, a) :: List.enumFrom (n + 1) tl)).map Prod.snd) = _
      rw [List.filter_cons, hcond]
      simp only [Bool.false_eq_true, if_false]
      have harith : c + 1 + n = c + (n + 1) := by omega
      rw [harith, ih tl (n + 1)]
      rfl

/-- In a strictly-descending list, a row lies beyond position `C` exactly
when more than `C` rows have a strictly larger timestamp. -/
theorem mem_drop_iff_countP (r : Resource) :
    ∀ (l : List Resource), l.Pairwise (fun a b => b.2 < a.2) → ∀ (C : Nat),
      (r ∈ l.drop C ↔ r ∈ l ∧ C < l.countP (fun x => decide (r.2 < x.2)) + 1)
  | [], _, C => by simp
  | _ :: _, _, 0 => by simp
  | a :: tl, hsort, (c + 1) => by
    rcases List.pairwise_cons.mp hsort with ⟨ha, htl⟩
    have ih := mem_drop_iff_countP r tl htl c
    rw [List.drop_succ_cons, ih, List.countP_cons]
    constructor
    · rintro ⟨hr, hc⟩
      have hra : r.2 < a.2 := ha r hr
      refine ⟨List.mem_cons_of_mem _ hr, ?_⟩
      simp only [decide_eq_true_eq]
      rw [if_pos hra]
      omega
    · rintro ⟨hr, hc⟩
      rcases List.mem_cons.mp hr with rfl | hr
      · exfalso
        have h0 : tl.countP (fun x => decide (r.2 < x.2)) = 0 := by
          rw [List.countP_eq_zero]
          intro x hx
          simp only [decide_eq_true_eq]
          exact Nat.not_lt.mpr (Nat.le_of_lt (ha x hx))
        rw [h0] at hc
        simp only [decide_eq_true_eq] at hc
        rw [if_neg (Nat.lt_irrefl r.2)] at hc
        omega
      · have hra : r.2 < a.2 := ha r hr
        refine ⟨hr, ?_⟩
        simp only [decide_eq_true_eq] at hc
        rw [if_pos hra] at hc
        omega

/-- Distinct timestamps make the descending sort strictly descending. -/
theorem sorted_desc_strict (rs : List Resource) (hst : (stampsOf rs).Nodup) :
    (List.insertionSort byLastUsedDesc rs).Pairwise (fun a b => b.2 < a.2) := by
  have hperm := List.perm_insertionSort byLastUsedDesc rs
  have hsorted : (List.insertionSort byLastUsedDesc rs).Pairwise byLastUsedDesc :=
    List.sorted_insertionSort byLastUsedDesc rs
  have hne : rs.Pairwise (fun a b => a.2 ≠ b.2) := by
    have := (List.pairwise_map (f := Prod.snd)).mp hst
    exact this
  have hne' : (List.insertionSort byLastUsedDesc rs).Pairwise (fun a b => a.2 ≠ b.2) :=
    ((hperm.pairwise_iff (fun {_ _} h => h.symm)).mpr hne)
  have hand := hsorted.and hne'
  exact hand.imp (fun {a b} h => Nat.lt_of_le_of_ne h.1 (fun he => h.2 he.symm))

theorem upsert_self_mem (rs : List Resource) (f : String) (now : Nat) :
    (f, now) ∈ upsert rs f now := by
  unfold upsert
  by_cases h : rs.any (fun r => r.1 == f)
  · rw [if_pos h]
    rcases List.any_eq_true.mp h with ⟨r, hr, hrf⟩
    have hrf' : r.1 = f := by simpa using hrf
    refine List.mem_map.mpr ⟨r, hr, ?_⟩
    rw [if_pos (by simpa using hrf'), hrf']
  · rw [if_neg h]
    exact List.mem_append_right _ (List.mem_singleton.mpr rfl)

theorem upsert_mem_other (rs : List Resource) (f : String) (now : Nat)
    {g : String} {t : Nat} (hg : g ≠ f) :
    ((g, t) ∈ upsert rs f now ↔ (g, t) ∈ rs) := by
  unfold upsert
  by_cases h : rs.any (fun r => r.1 == f)
  · rw [if_pos h]
    constructor
    · intro hm
      rcases List.mem_map.mp hm with ⟨r, hr, hrr⟩
      by_cases hrf : (r.1 == f) = true
      · rw [if_pos hrf] at hrr
        have hrg : r.1 = g := congrArg Prod.fst hrr
        exact absurd (hrg.symm.trans (eq_of_beq hrf)) hg
      · rw [if_neg hrf] at hrr
        exact hrr ▸ hr
    · intro hm
      refine List.mem_map.mpr ⟨(g, t), hm, ?_⟩
      rw [if_neg (by simpa using hg)]
  · rw [if_neg h]
    constructor
    · intro hm
      rcases List.mem_append.mp hm with hm | hm
      · exact hm
      · exact absurd (congrArg Prod.fst (List.mem_singleton.mp hm)) hg
    · exact fun hm => List.mem_append_left _ hm

theorem upsert_keys (rs : List Resource) (f : String) (now : Nat) :
    keysOf (upsert rs f now) =
      if rs.any (fun r => r.1 == f) then keysOf rs else keysOf rs ++ [f] := by
  unfold upsert keysOf
  by_cases h : rs.any (fun r => r.1 == f)
  · rw [if_pos h, if_pos h, List.map_map]
    refine List.map_congr_left ?_
    intro r _
    simp only [Function.comp]
    split <;> rfl
  · rw [if_neg h, if_neg h, List.map_append]
    rfl

theorem upsert_keys_nodup (rs : List Resource) (f : String) (now : Nat)
    (hk : (keysOf rs).Nodup) : (keysOf (upsert rs f now)).Nodup := by
  rw [upsert_keys]
  by_cases h : rs.any (fun r => r.1 == f)
  · rw [if_pos h]; exact hk
  · rw [if_neg h]
    have hf : f ∉ keysOf rs := by
      intro hmem
      rcases List.mem_map.mp hmem with ⟨r, hr, hrf⟩
      exact h (List.any_eq_true.mpr ⟨r, hr, by simpa using hrf⟩)
    simpa [List.nodup_append] using ⟨hk, fun hmem => hf hmem⟩

theorem upsert_stamps_nodup (rs : List Resource) (f : String) (now : Nat)
    (hk : (keysOf rs).Nodup) (hst : (stampsOf rs).Nodup)
    (hnow : ∀ r ∈ rs, r.2 < now) : (stampsOf (upsert rs f now)).Nodup := by
  have hkp : rs.Pairwise (fun a b => a.1 ≠ b.1) := (List.pairwise_map (f := Prod.fst)).mp hk
  have hsp : rs.Pairwise (fun a b => a.2 ≠ b.2) := (List.pairwise_map (f := Prod.snd)).mp hst
  unfold upsert stampsOf
  by_cases h : rs.any (fun r => r.1 == f)
  · rw [if_pos h, List.map_map]
    have hcomb : rs.Pairwise (fun a b => a.1 ≠ b.1 ∧ a.2 ≠ b.2) := hkp.and hsp
    have hmapped : rs.Pairwise (fun a b =>
        (Prod.snd ∘ fun r => if r.1 == f then (r.1, now) else r) a ≠
        (Prod.snd ∘ fun r => if r.1 == f then (r.1, now) else r) b) := by
      refine hcomb.imp_of_mem ?_
      intro a b ha hb hab
      by_cases haf : (a.1 == f) = true <;> by_cases hbf : (b.1 == f) = true
      · exact absurd ((eq_of_beq haf).trans (eq_of_beq hbf).symm) hab.1
      · simp only [Function.comp, if_pos haf, if_neg hbf]
        intro he
        have := hnow b hb
        omega
      · simp only [Function.comp, if_neg haf, if_pos hbf]
        intro he
        have := hnow a ha
        omega
      · simp only [Function.comp, if_neg haf, if_neg hbf]
        exact hab.2
    exact (List.pairwise_map).mpr hmapped
  · rw [if_neg h, List.map_append]
    rw [List.nodup_append]
    refine ⟨hst, List.nodup_singleton now, ?_⟩
    intro t ht htn
    rcases List.mem_map.mp ht with ⟨r, hr, hrt⟩
    have h1 : t = now := List.mem_singleton.mp htn
    have h2 := hnow r hr
    omega

/-- The window query is `drop C` on the descending sort, re-sorted
ascending. -/
theorem expiredRecords_eq_sorted_drop (C : Nat) (rs : List Resource) :
    expiredRecords C rs =
      List.insertionSort byLastUsedAsc ((List.insertionSort byLastUsedDesc rs).drop C) := by
  unfold expiredRecords
  have h := enumFrom_filter_map_snd C (List.insertionSort byLastUsedDesc rs) 0
  simp only [Nat.add_zero] at h
  simp only [List.enum]
  rw [h]

theorem mem_of_mem_expiredRecords {C : Nat} {rs : List Resource} {r : Resource}
    (h : r ∈ expiredRecords C rs) : r ∈ rs := by
  rw [expiredRecords_eq_sorted_drop] at h
  have h1 := (List.perm_insertionSort byLastUsedAsc _).mem_iff.mp h
  have h2 := List.mem_of_mem_drop h1
  exact (List.perm_insertionSort byLastUsedDesc rs).mem_iff.mp h2

/-- With distinct timestamps, the window query returns exactly the rows whose
rank by last-used descending exceeds the capacity. -/
theorem mem_expiredRecords (C : Nat) (rs : List Resource)
    (hst : (stampsOf rs).Nodup) (r : Resource) :
    r ∈ expiredRecords C rs ↔ r ∈ rs ∧ C < rankIn rs r := by
  rw [expiredRecords_eq_sorted_drop]
  have hperm := List.perm_insertionSort byLastUsedDesc rs
  have hstrict := sorted_desc_strict rs hst
  have h1 : r ∈ List.insertionSort byLastUsedAsc
        ((List.insertionSort byLastUsedDesc rs).drop C) ↔
      r ∈ (List.insertionSort byLastUsedDesc rs).drop C :=
    (List.perm_insertionSort byLastUsedAsc _).mem_iff
  rw [h1, mem_drop_iff_countP r _ hstrict C]
  unfold rankIn
  rw [hperm.countP_eq, hperm.mem_iff]

/-- With distinct timestamps, the window query's result is strictly
chronological: oldest first. -/
theorem expiredRecords_pairwise_lt (C : Nat) (rs : List Resource)
    (hst : (stampsOf rs).Nodup) :
    (expiredRecords C rs).Pairwise (fun a b => a.2 < b.2) := by
  rw [expiredRecords_eq_sorted_drop]
  have hstsorted : (stampsOf (List.insertionSort byLastUsedDesc rs)).Nodup := by
    unfold stampsOf
    exact (((List.perm_insertionSort byLastUsedDesc rs).map Prod.snd).nodup_iff).mpr hst
  have hstl : (stampsOf ((List.insertionSort byLastUsedDesc rs).drop C)).Nodup := by
    unfold stampsOf
    rw [List.map_drop]
    exact (List.drop_sublist C _).nodup hstsorted
  have hsorted : (List.insertionSort byLastUsedAsc
        ((List.insertionSort byLastUsedDesc rs).drop C)).Pairwise byLastUsedAsc :=
    List.sorted_insertionSort byLastUsedAsc _
  have hne : ((List.insertionSort byLastUsedDesc rs).drop C).Pairwise
      (fun a b => a.2 ≠ b.2) := (List.pairwise_map).mp hstl
  have hne' := ((List.perm_insertionSort byLastUsedAsc _).pairwise_iff
    (fun {_ _} h => h.symm)).mpr hne
  exact (hsorted.and hne').imp (fun {a b} h => Nat.lt_of_le_of_ne h.1 h.2)

theorem not_mem_keys_upsert {rs : List Resource} {f g : String} {now : Nat}
    (hf : f ∉ keysOf rs) (hfg : f ≠ g) : f ∉ keysOf (upsert rs g now) := by
  rw [upsert_keys]
  by_cases h : rs.any (fun r => r.1 == g)
  · rw [if_pos h]; exact hf
  · rw [if_neg h]
    intro hmem
    rcases List.mem_append.mp hmem with hmem | hmem
    · exact hf hmem
    · exact hfg (List.mem_singleton.mp hmem)

theorem not_mem_keys_filter {rs : List Resource} {f : String} {p : Resource → Bool}
    (hf : f ∉ keysOf rs) : f ∉ keysOf (rs.filter p) := by
  intro hmem
  rcases List.mem_map.mp hmem with ⟨r, hr, hrf⟩
  exact hf (List.mem_map.mpr ⟨r, List.mem_of_mem_filter hr, hrf⟩)

theorem not_mem_keys_mark_deleted (j : Journal) (f : String) :
    f ∉ keysOf (j.mark_deleted f).resources := by
  intro hmem
  rcases List.mem_map.mp hmem with ⟨r, hr, hrf⟩
  have := List.of_mem_filter hr
  simp only [Bool.not_eq_true', beq_eq_false_iff_ne, ne_eq] at this
  exact this hrf

/-- Every fingerprint returned by `record_usage` is a key of the updated
table. -/
theorem record_usage_output_sub_keys (j : Journal) (g : String) (now : Nat)
    {f : String} (hf : f ∈ (j.record_usage g now).2) :
    f ∈ keysOf (j.record_usage g now).1.resources := by
  rcases List.mem_map.mp hf with ⟨r, hr, hrf⟩
  exact List.mem_map.mpr ⟨r, mem_of_mem_expiredRecords hr, hrf⟩

/-- A fingerprint absent from the table and never recorded again is never
returned as evictable by any later sequence of journal operations. -/
theorem applyOps_never_returns_absent (f : String) :
    ∀ (ops : List JournalOp) (j : Journal),
      f ∉ keysOf j.resources →
      (∀ now, JournalOp.record f now ∉ ops) →
      ∀ out ∈ (applyOps j ops).2, f ∉ out
  | [], _, _, _ => by intro out hout; exact absurd hout (List.not_mem_nil out)
  | .record g now :: ops, j, hf, hops => by
      have hfg : f ≠ g := by
        intro h
        exact hops now (h ▸ List.mem_cons_self _ _)
      have hf' : f ∉ keysOf (j.record_usage g now).1.resources :=
        not_mem_keys_upsert hf hfg
      intro out hout
      rcases List.mem_cons.mp hout with rfl | hout
      · intro hmem
        exact hf' (record_usage_output_sub_keys j g now hmem)
      · exact applyOps_never_returns_absent f ops (j.record_usage g now).1 hf'
          (fun n hn => hops n (List.mem_cons_of_mem _ hn)) out hout
  | .mark g :: ops, j, hf, hops => by
      have hf' : f ∉ keysOf (j.mark_deleted g).resources := not_mem_keys_filter hf
      intro out hout
      exact applyOps_never_returns_absent f ops (j.mark_deleted g) hf'
        (fun n hn => hops n (List.mem_cons_of_mem _ hn)) out hout

/-- **C3.** For every journal state (with the table's primary-key invariant,
distinct timestamps, and `now` later than every stored timestamp) and every
fingerprint `f`, `record_usage f now` upserts the record for `f` with
timestamp `now` (leaving every other record unchanged and at most one record
per fingerprint), and returns exactly the fingerprints whose rank by
last-used timestamp, descending, exceeds the capacity, ordered oldest first;
in particular with capacity 1, recording `fingerprint1`, `fingerprint2`,
`fingerprint3` in order returns `[]`, `["fingerprint1"]`, then
`["fingerprint1", "fingerprint2"]`. -/
theorem record_usage_evicts_beyond_capacity_oldest_first
    (j : Journal) (f : String) (now : Nat)
    (hk : (keysOf j.resources).Nodup)
    (hst : (stampsOf j.resources).Nodup)
    (hnow : ∀ r ∈ j.resources, r.2 < now) :
    ((f, now) ∈ (j.record_usage f now).1.resources) ∧
    (∀ g t, g ≠ f →
      ((g, t) ∈ (j.record_usage f now).1.resources ↔ (g, t) ∈ j.resources)) ∧
    (keysOf (j.record_usage f now).1.resources).Nodup ∧
    ((j.record_usage f now).2 =
      (expiredRecords j.maximum_resources (j.record_usage f now).1.resources).map
        Prod.fst) ∧
    (∀ g, g ∈ (j.record_usage f now).2 ↔
      ∃ t, (g, t) ∈ (j.record_usage f now).1.resources ∧
        j.maximum_resources < rankIn (j.record_usage f now).1.resources (g, t)) ∧
    ((expiredRecords j.maximum_resources (j.record_usage f now).1.resources).Pairwise
      (fun a b => a.2 < b.2)) ∧
    ((Journal.record_usage ⟨[], 1⟩ "fingerprint1" 0).2 = [] ∧
     (Journal.record_usage (Journal.record_usage ⟨[], 1⟩ "fingerprint1" 0).1
        "fingerprint2" 1).2 = ["fingerprint1"] ∧
     (Journal.record_usage (Journal.record_usage (Journal.record_usage ⟨[], 1⟩
        "fingerprint1" 0).1 "fingerprint2" 1).1 "fingerprint3" 2).2 =
       ["fingerprint1", "fingerprint2"]) := by
  have hks := upsert_keys_nodup j.resources f now hk
  have hsts := upsert_stamps_nodup j.resources f now hk hst hnow
  refine ⟨upsert_self_mem _ _ _, fun g t hg => upsert_mem_other _ _ _ hg, hks, rfl,
    ?_, expiredRecords_pairwise_lt _ _ hsts, by decide, by decide, by decide⟩
  intro g
  constructor
  · intro hg
    rcases List.mem_map.mp hg with ⟨r, hr, rfl⟩
    have h := (mem_expiredRecords _ _ hsts r).mp hr
    exact ⟨r.2, h.1, h.2⟩
  · rintro ⟨t, hmem, hrank⟩
    exact List.mem_map.mpr ⟨(g, t), (mem_expiredRecords _ _ hsts (g, t)).mpr
      ⟨hmem, hrank⟩, rfl⟩

/-- Witness for C3: a concrete journal with capacity 1 holding two older
records; recording a third fingerprint stores it with the new timestamp. -/
theorem record_usage_evicts_beyond_capacity_oldest_first_witness :
    ("c", 7) ∈ ((Journal.record_usage ⟨[("a", 0), ("b", 3)], 1⟩ "c" 7).1.resources) :=
  (record_usage_evicts_beyond_capacity_oldest_first ⟨[("a", 0), ("b", 3)], 1⟩ "c" 7
    (by decide) (by decide) (by decide)).1

/-- **C8.** `mark_deleted f` removes the journal record for `f` if present
(leaving other records untouched) and is a no-op otherwise; it is idempotent;
and after `mark_deleted f`, the fingerprint `f` never appears in any evictable
list returned by a later sequence of journal operations that does not record
`f` again.  With capacity 1: record `fingerprint1`, `mark_deleted
fingerprint1`, record `fingerprint2` returns `[]` for both `record` calls. -/
theorem mark_deleted_removes_and_hides_from_eviction (j : Journal) (f : String) :
    (∀ t, (f, t) ∉ (j.mark_deleted f).resources) ∧
    (∀ g t, g ≠ f →
      ((g, t) ∈ (j.mark_deleted f).resources ↔ (g, t) ∈ j.resources)) ∧
    ((∀ t, (f, t) ∉ j.resources) → j.mark_deleted f = j) ∧
    ((j.mark_deleted f).mark_deleted f = j.mark_deleted f) ∧
    (∀ ops : List JournalOp, (∀ now, JournalOp.record f now ∉ ops) →
      ∀ out ∈ (applyOps (j.mark_deleted f) ops).2, f ∉ out) ∧
    ((applyOps ⟨[], 1⟩ [JournalOp.record "fingerprint1" 0,
        JournalOp.mark "fingerprint1", JournalOp.record "fingerprint2" 1]).2 =
      [[], []]) := by
  refine ⟨?_, ?_, ?_, ?_, ?_, by decide⟩
  · intro t hmem
    have := List.of_mem_filter hmem
    simp at this
  · intro g t hg
    constructor
    · intro hmem
      exact List.mem_of_mem_filter hmem
    · intro hmem
      refine List.mem_filter.mpr ⟨hmem, ?_⟩
      simpa using hg
  · intro habs
    have : j.resources.filter (fun r => !(r.1 == f)) = j.resources := by
      apply List.filter_eq_self.mpr
      intro r hr
      simp only [Bool.not_eq_true', beq_eq_false_iff_ne, ne_eq]
      intro hrf
      exact habs r.2 (by rw [← hrf]; exact hr)
    show ({ j with resources := _ } : Journal) = j
    rw [this]
  · have h : ∀ rs : List Resource, (rs.filter (fun r => !(r.1 == f))).filter
        (fun r => !(r.1 == f)) = rs.filter (fun r => !(r.1 == f)) := by
      intro rs
      rw [List.filter_filter]
      apply List.filter_congr
      intro r _
      exact Bool.and_self _
    simp only [Journal.mark_deleted, h]
  · intro ops hops
    exact applyOps_never_returns_absent f ops (j.mark_deleted f)
      (not_mem_keys_mark_deleted j f) hops

/-- Witness for C8: after deleting `"a"` from a concrete journal, recording
`"b"` never returns `"a"` as evictable. -/
theorem mark_deleted_removes_and_hides_from_eviction_witness :
    ∀ out ∈ (applyOps ((⟨[("a", 0)], 1⟩ : Journal).mark_deleted "a")
      [JournalOp.record "b" 1]).2, "a" ∉ out :=
  (mark_deleted_removes_and_hides_from_eviction ⟨[("a", 0)], 1⟩ "a").2.2.2.2.1
    [JournalOp.record "b" 1] (by
      intro now hmem
      have h := List.mem_singleton.mp hmem
      injection h with h1 h2
      exact absurd h1 (by decide))

/-- **C1.** For every lock upgrade (shared to exclusive) and downgrade
(exclusive to shared) on a lock handle, between the call and its return the
process continuously holds either a shared or an exclusive lock on the file:
the mode change is a single blocking `fcntl` call that replaces the held lock
(whether it succeeds or fails), and the consumed token's scope-exit cleanup
(`Drop` on the taken-from token) issues no unlock after the transfer. -/
theorem upgrade_downgrade_never_unlocked (t : LockToken) (ok : Bool) :
    ((ReadLock.upgrade t).2.1 = [LockOperation.write]) ∧
    (∀ s ∈ lockTrace .shared (ReadLock.upgrade t).2.1 [ok],
      s = LockState.shared ∨ s = LockState.exclusive) ∧
    ((ReadLock.upgrade t).1.dropOps = []) ∧
    ((WriteLock.downgrade t).2.1 = [LockOperation.read]) ∧
    (∀ s ∈ lockTrace .exclusive (WriteLock.downgrade t).2.1 [ok],
      s = LockState.shared ∨ s = LockState.exclusive) ∧
    ((WriteLock.downgrade t).1.dropOps = []) := by
  refine ⟨rfl, ?_, rfl, rfl, ?_, rfl⟩
  · show ∀ s ∈ lockTrace .shared [LockOperation.write] [ok],
      s = LockState.shared ∨ s = LockState.exclusive
    cases ok <;> decide
  · show ∀ s ∈ lockTrace .exclusive [LockOperation.read] [ok],
      s = LockState.shared ∨ s = LockState.exclusive
    cases ok <;> decide

/-- Witness for C1: on a live token with a succeeding syscall, the first
state of the upgrade trace is the shared lock. -/
theorem upgrade_downgrade_never_unlocked_witness :
    LockState.shared = LockState.shared ∨ LockState.shared = LockState.exclusive :=
  (upgrade_downgrade_never_unlocked ⟨some ()⟩ true).2.1 LockState.shared (by decide)

/-- C2, counterexample: with the environment executable absent,
`VenvManager::run` returns `Err(Error::MissingVenv)` straight to its caller —
it does not enter any build path, and the error is not consumed inside the
manager. -/
theorem run_missing_venv_counterexample :
    VenvManager.run false (ChildOutcome.exited 0) =
      RunResult.returnsErr VenvError.missingVenv := rfl

/-- **C2 (amended).** For every call to `VenvManager::run` where the
environment executable is absent, `run` fails, returning the `MissingVenv`
error to the manager's caller; it performs no build.  The error is returned
exactly when the executable is absent. -/
theorem run_returns_missing_venv_to_caller (ep : Bool) (child : ChildOutcome) :
    (VenvManager.run false child = RunResult.returnsErr VenvError.missingVenv) ∧
    (VenvManager.run ep child = RunResult.returnsErr VenvError.missingVenv ↔
      ep = false) := by
  cases ep <;> cases child <;> simp [VenvManager.run]

/-- Witness for C2: a concrete absent-executable call returns the
`MissingVenv` error. -/
theorem run_returns_missing_venv_to_caller_witness :
    VenvManager.run false ChildOutcome.signaled =
      RunResult.returnsErr VenvError.missingVenv :=
  (run_returns_missing_venv_to_caller false ChildOutcome.signaled).1

/-- **C4 (code bug).** `VenvManager::delete` is `todo!()`: on every state it
panics ("not yet implemented") and removes nothing, instead of acquiring a
write token, removing the environment directory, and returning success. -/
theorem delete_panics_on_every_state (st : VenvState) :
    (VenvManager.delete st).1 = DeleteResult.panicked "not yet implemented" ∧
    (VenvManager.delete st).2 = st :=
  ⟨rfl, rfl⟩

/-- **C7.** Whenever the environment executable already exists while the
write lock is held, `VenvManager::create` skips the build and returns success
without invoking the external builder; consequently, for two serialized
`create` calls against the same initially absent environment whose first
build step succeeds, the builder runs exactly once — the second call skips
after acquiring the write lock. -/
theorem create_skips_build_when_present (st : VenvState) (venvOk pipOk v2 p2 : Bool) :
    (st.venv_python_exists = true →
      ((VenvManager.create st venvOk pipOk).2.1.count .venvBuilderInvoked = 0 ∧
       (VenvManager.create st venvOk pipOk).2.2 = true ∧
       (VenvManager.create st venvOk pipOk).1 = st)) ∧
    (st.venv_python_exists = false → venvOk = true →
      ((VenvManager.create st venvOk pipOk).2.1.count .venvBuilderInvoked = 1 ∧
       ((VenvManager.create (VenvManager.create st venvOk pipOk).1 v2 p2).2.1.count
          .venvBuilderInvoked = 0) ∧
       (VenvManager.create (VenvManager.create st venvOk pipOk).1 v2 p2).2.2 = true)) := by
  constructor
  · intro hp
    obtain ⟨ep, de⟩ := st
    cases ep
    · cases hp
    · exact ⟨rfl, rfl, rfl⟩
  · intro hp hv
    obtain ⟨ep, de⟩ := st
    cases ep
    · subst hv
      cases pipOk <;> exact ⟨rfl, rfl, rfl⟩
    · cases hp

/-- Witness for C7: from an absent environment, a successful first `create`
builds, and a second `create` skips the builder and succeeds. -/
theorem create_skips_build_when_present_witness :
    ((VenvManager.create ⟨false, false⟩ true true).2.1.count .venvBuilderInvoked = 1 ∧
     ((VenvManager.create (VenvManager.create ⟨false, false⟩ true true).1
        true true).2.1.count .venvBuilderInvoked = 0) ∧
     (VenvManager.create (VenvManager.create ⟨false, false⟩ true true).1
        true true).2.2 = true) :=
  (create_skips_build_when_present ⟨false, false⟩ true true true true).2 rfl rfl

/-- **C10.** `VenvManager::run` returns to its caller only through the error
path, exactly when the environment executable is missing; whenever the child
interpreter is actually spawned, `run` terminates the whole process — with
the child's exit code, `127` if the child was terminated by a signal, `1` if
it could not be spawned — and never returns its declared exit-status value. -/
theorem run_exits_process_never_returns_status (ep : Bool) (child : ChildOutcome)
    (c : Nat) :
    (∀ code, VenvManager.run ep child ≠ RunResult.returnsStatus code) ∧
    (VenvManager.run ep child = RunResult.returnsErr VenvError.missingVenv ↔
      ep = false) ∧
    (VenvManager.run true (ChildOutcome.exited c) = RunResult.processExit c) ∧
    (VenvManager.run true ChildOutcome.signaled = RunResult.processExit 127) ∧
    (VenvManager.run true ChildOutcome.spawnFailure = RunResult.processExit 1) := by
  cases ep <;> cases child <;> simp [VenvManager.run]

/-- Witness for C10: a concrete spawned child that exited with code 5 makes
`run` terminate the process with code 5. -/
theorem run_exits_process_never_returns_status_witness :
    VenvManager.run true (ChildOutcome.exited 5) = RunResult.processExit 5 :=
  (run_exits_process_never_returns_status true (ChildOutcome.exited 5) 5).2.2.1

/-! ## Fingerprinting (`venv_sha`, `python_version` in `src/venv.rs`;
`shasum` in `src/main.rs`)

The `sha256` crate's `digest` is standard SHA-256 with a lowercase-hex
output; it is implemented here over `Nat` with explicit reduction modulo
`2 ^ 32`.  Strings are hashed over their UTF-8 bytes; all concrete inputs
used below are ASCII, where a character's code point is its byte. -/

namespace SHA256

def M32 : Nat := 4294967296

def add32 (a b : Nat) : Nat := (a + b) % M32

def not32 (a : Nat) : Nat := Nat.xor a (M32 - 1)

def rotr (n x : Nat) : Nat := ((x >>> n) ||| (x <<< (32 - n))) % M32

def bsig0 (x : Nat) : Nat := Nat.xor (Nat.xor (rotr 2 x) (rotr 13 x)) (rotr 22 x)

def bsig1 (x : Nat) : Nat := Nat.xor (Nat.xor (rotr 6 x) (rotr 11 x)) (rotr 25 x)

def ssig0 (x : Nat) : Nat := Nat.xor (Nat.xor (rotr 7 x) (rotr 18 x)) (x >>> 3)

def ssig1 (x : Nat) : Nat := Nat.xor (Nat.xor (rotr 17 x) (rotr 19 x)) (x >>> 10)

def ch (x y z : Nat) : Nat := Nat.xor (Nat.land x y) (Nat.land (not32 x) z)

def maj (x y z : Nat) : Nat :=
  Nat.xor (Nat.xor (Nat.land x y) (Nat.land x z)) (Nat.land y z)

/-- The 64 round constants (fractional parts of the cube roots of the first
64 primes), in decimal. -/
def K : List Nat :=
  [1116352408, 1899447441, 3049323471, 3921009573, 961987163,
   1508970993, 2453635748, 2870763221, 3624381080, 310598401,
   607225278, 1426881987, 1925078388, 2162078206, 2614888103,
   3248222580, 3835390401, 4022224774, 264347078, 604807628,
   770255983, 1249150122, 1555081692, 1996064986, 2554220882,
   2821834349, 2952996808, 3210313671, 3336571891, 3584528711,
   113926993, 338241895, 666307205, 773529912, 1294757372,
   1396182291, 1695183700, 1986661051, 2177026350, 2456956037,
   2730485921, 2820302411, 3259730800, 3345764771, 3516065817,
   3600352804, 4094571909, 275423344, 430227734, 506948616,
   659060556, 883997877, 958139571, 1322822218, 1537002063,
   1747873779, 1955562222, 2024104815, 2227730452, 2361852424,
   2428436474, 2756734187, 3204031479, 3329325298]

/-- The initial hash state (fractional parts of the square roots of the
first 8 primes), in decimal. -/
def H0 : List Nat :=
  [1779033703, 3144134277, 1013904242, 2773480762,
   1359893119, 2600822924, 528734635, 1541459225]

/-- `count` big-endian bytes of `v`. -/
def bigEndianBytes : Nat → Nat → List Nat
  | 0, _ => []
  | n + 1, v => bigEndianBytes n (v / 256) ++ [v % 256]

/-- Merkle–Damgård padding: `0x80`, zeros to 56 mod 64, 8-byte bit length. -/
def pad (msg : List Nat) : List Nat :=
  let L := msg.length
  let k := (119 - L % 64) % 64
  msg ++ [0x80] ++ List.replicate k 0 ++ bigEndianBytes 8 (L * 8)

/-- Group bytes into big-endian 32-bit words (`acc`/`cnt` carry the partial
word). -/
def toWordsAux : List Nat → Nat → Nat → List Nat
  | [], _, _ => []
  | b :: rest, acc, cnt =>
      if cnt = 3 then (acc * 256 + b) :: toWordsAux rest 0 0
      else toWordsAux rest (acc * 256 + b) (cnt + 1)

/-- Group words into 16-word blocks (`acc` holds the current block,
reversed). -/
def chunk16Aux : List Nat → List Nat → List (List Nat)
  | [], acc => if acc.isEmpty then [] else [acc.reverse]
  | w :: rest, acc =>
      if acc.length = 15 then (w :: acc).reverse :: chunk16Aux rest []
      else chunk16Aux rest (w :: acc)

/-- Extend the message schedule; `ws` holds the words newest-first, so
`w[t-2], w[t-7], w[t-15], w[t-16]` are at positions 1, 6, 14, 15. -/
def scheduleExtend : Nat → List Nat → List Nat
  | 0, ws => ws
  | n + 1, ws =>
      scheduleExtend n
        (add32 (add32 (ssig1 (ws.getD 1 0)) (ws.getD 6 0))
           (add32 (ssig0 (ws.getD 14 0)) (ws.getD 15 0)) :: ws)

def schedule (block : List Nat) : List Nat :=
  (scheduleExtend 48 block.reverse).reverse

/-- The eight working variables of the compression function. -/
structure WorkVars where
  a : Nat
  b : Nat
  c : Nat
  d : Nat
  e : Nat
  f : Nat
  g : Nat
  hh : Nat

def round (s : WorkVars) (kw : Nat × Nat) : WorkVars :=
  let t1 := add32 s.hh (add32 (bsig1 s.e) (add32 (ch s.e s.f s.g) (add32 kw.1 kw.2)))
  let t2 := add32 (bsig0 s.a) (maj s.a s.b s.c)
  ⟨add32 t1 t2, s.a, s.b, s.c, add32 s.d t1, s.e, s.f, s.g⟩

def compressBlock (hs : List Nat) (block : List Nat) : List Nat :=
  let w := schedule block
  let s0 : WorkVars := ⟨hs.getD 0 0, hs.getD 1 0, hs.getD 2 0, hs.getD 3 0,
    hs.getD 4 0, hs.getD 5 0, hs.getD 6 0, hs.getD 7 0⟩
  let s := (K.zip w).foldl round s0
  [add32 (hs.getD 0 0) s.a, add32 (hs.getD 1 0) s.b, add32 (hs.getD 2 0) s.c,
   add32 (hs.getD 3 0) s.d, add32 (hs.getD 4 0) s.e, add32 (hs.getD 5 0) s.f,
   add32 (hs.getD 6 0) s.g, add32 (hs.getD 7 0) s.hh]

def sha256Words (msg : List Nat) : List Nat :=
  (chunk16Aux (toWordsAux (pad msg) 0 0) []).foldl compressBlock H0

def hexChar (d : Nat) : Char :=
  if d < 10 then Char.ofNat (48 + d) else Char.ofNat (87 + d)

def nibbles : Nat → Nat → List Nat
  | 0, _ => []
  | n + 1, v => nibbles n (v / 16) ++ [v % 16]

def wordToHex (w : Nat) : List Char := (nibbles 8 w).map hexChar

/-- UTF-8 bytes of an ASCII string. -/
def strBytes (s : String) : List Nat := s.data.map Char.toNat

/-- Lowercase-hex SHA-256 digest of a string, as the `sha256` crate's
`digest` computes it. -/
def sha256hex (s : String) : String :=
  ⟨((sha256Words (strBytes s)).map wordToHex).flatten⟩

end SHA256

/-- `python_version` (`venv.rs:100-103`) invokes the interpreter with
`--version` and returns its standard output; the interpreter's behaviour is
an environment parameter mapping the interpreter path to that output.
`venv_sha` (`venv.rs:93-98`) is
`sha256::digest(format!("{python_version}\n\n{requirements}"))`. -/
def venv_sha (pythonVersion : String → String)
    (python_executable requirements : String) : String :=
  SHA256.sha256hex (pythonVersion python_executable ++ "\n\n" ++ requirements)

/-- Rust's `Debug` formatting of a `PathBuf` wraps the path in double quotes
(exact for paths containing no character that needs escaping). -/
def pathDebugFmt (p : String) : String := "\"" ++ p ++ "\""

/-- The fingerprint the driver uses to name the environment directory
(`main.rs:44`): `sha256::digest(format!("{:?}:{}", opt.python, requirements))`.
It invokes no interpreter. -/
def mainShasum (python requirements : String) : String :=
  SHA256.sha256hex (pathDebugFmt python ++ ":" ++ requirements)

/-! ## `src/main.rs` — the driver -/

/-- Externally observable driver actions, in program order.  `exitProcess`
is `std::process::exit`. -/
inductive DriverEvent
  | journalOpen
  | readRequirements
  | createRootDir
  | recordUsage (fingerprint : String)
  | evictRemoveDir (fingerprint : String)
  | evictMarkDeleted (fingerprint : String)
  | acquireRead
  | runPython
  | releaseRead
  | acquireWrite
  | createVenv
  | releaseWrite
  | exitProcess (code : Nat)
deriving DecidableEq, Repr

/-- The exit code `run_python` (`main.rs:94-110`) hands to
`std::process::exit`: the child's code verbatim, `127` if the child was
terminated by a signal, `1` if it could not be spawned. -/
def run_python_exit (child : ChildOutcome) : Nat :=
  match child with
  | .exited code => code
  | .signaled => 127
  | .spawnFailure => 1

/-- `run_python` runs the child then exits the process; it never returns. -/
def runPythonEvents (child : ChildOutcome) : List DriverEvent :=
  [.runPython, .exitProcess (run_python_exit child)]

/-- Eviction step at `main.rs:48-54`: the source pattern-matches the
`Vec<String>` returned by `record_usage` against `Option` (`if let Some(…)`,
a type error in the source as written); modelled as the evident intent of
that pattern — evict the first returned fingerprint when there is one:
take the write lock, remove the directory, `mark_deleted` it. -/
def evictionEvents (evictable : List String) : List DriverEvent :=
  match evictable with
  | [] => []
  | f :: _ => [.evictRemoveDir f, .evictMarkDeleted f]

/-- One driver invocation's observable inputs: the journal it opens, the
computed fingerprint, the current time, one observation per loop try
(whether `venv_dir` exists under the read lock, and whether `create_venv`
succeeds under the write lock), and the child's outcome if it runs. -/
structure DriverScenario where
  journal : Journal
  shasum : String
  now : Nat
  iterations : List (Bool × Bool)
  child : ChildOutcome

/-- The retry loop at `main.rs:58-70` (`for _ in 0..5`; the real driver
iterates five times, so `iterations` has five entries): under the read lock,
if the directory exists, `run_python` (which exits the process); otherwise
release the read lock, take the write lock, `create_venv` (propagating its
error — exit nonzero — on failure, the `?` at `main.rs:68`), release, retry.
After the loop: "Failed to establish venv within 5 tries." and `exit(1)`
(`main.rs:72-73`). -/
def loopEvents : List (Bool × Bool) → ChildOutcome → List DriverEvent
  | [], _ => [.exitProcess 1]
  | (dirExists, createOk) :: rest, child =>
      if dirExists then
        .acquireRead :: runPythonEvents child
      else
        [.acquireRead, .releaseRead, .acquireWrite, .createVenv, .releaseWrite] ++
          (if createOk then loopEvents rest child else [.exitProcess 1])

/-- The whole driver invocation (`main` at `main.rs:39-74`), in source
order: open the journal, read the requirements, create the root directory,
`record_usage` the fingerprint, evict, then enter the retry loop. -/
def mainTrace (s : DriverScenario) : List DriverEvent :=
  [.journalOpen, .readRequirements, .createRootDir, .recordUsage s.shasum] ++
    evictionEvents (s.journal.record_usage s.shasum s.now).2 ++
    loopEvents s.iterations s.child

/-! ### Helper lemmas for the driver proofs -/

/-- If nothing in `l₂` satisfies `p` and nothing in `l₁` satisfies `q`, a
`p`-position strictly precedes every `q`-position in `l₁ ++ l₂`. -/
theorem pos_lt_pos_of_append {α : Type _} (l₁ l₂ : List α) (p q : α → Prop)
    (hp : ∀ x ∈ l₂, ¬ p x) (hq : ∀ x ∈ l₁, ¬ q x) (i j : Nat)
    (hi : i < (l₁ ++ l₂).length) (hj : j < (l₁ ++ l₂).length)
    (hpi : p ((l₁ ++ l₂)[i])) (hqj : q ((l₁ ++ l₂)[j])) : i < j := by
  have hi1 : i < l₁.length := by
    by_contra hge
    push_neg at hge
    have hlen : i - l₁.length < l₂.length := by
      have := List.length_append l₁ l₂
      omega
    have hmem : (l₁ ++ l₂)[i] ∈ l₂ := by
      rw [List.getElem_append_right hge]
      exact List.getElem_mem hlen
    exact hp _ hmem hpi
  have hj1 : l₁.length ≤ j := by
    by_contra hlt
    push_neg at hlt
    have hmem : (l₁ ++ l₂)[j] ∈ l₁ := by
      rw [List.getElem_append_left hlt]
      exact List.getElem_mem hlt
    exact hq _ hmem hqj
  omega

/-- Every event of the retry loop is a lock action, a run, a build, or a
process exit. -/
theorem loopEvents_shape :
    ∀ (its : List (Bool × Bool)) (child : ChildOutcome), ∀ e ∈ loopEvents its child,
      e = DriverEvent.acquireRead ∨ e = DriverEvent.releaseRead ∨
      e = DriverEvent.acquireWrite ∨ e = DriverEvent.createVenv ∨
      e = DriverEvent.releaseWrite ∨ e = DriverEvent.runPython ∨
      ∃ c, e = DriverEvent.exitProcess c
  | [], _ => by
      intro e he
      rcases List.mem_singleton.mp he with rfl
      exact Or.inr (Or.inr (Or.inr (Or.inr (Or.inr (Or.inr ⟨1, rfl⟩)))))
  | (dirExists, createOk) :: rest, child => by
      intro e he
      cases dirExists with
      | true =>
        simp only [loopEvents, if_pos] at he
        rcases List.mem_cons.mp he with rfl | he
        · exact Or.inl rfl
        · rcases List.mem_cons.mp he with rfl | he
          · exact Or.inr (Or.inr (Or.inr (Or.inr (Or.inr (Or.inl rfl)))))
          · rcases List.mem_singleton.mp he with rfl
            exact Or.inr (Or.inr (Or.inr (Or.inr (Or.inr (Or.inr ⟨_, rfl⟩)))))
      | false =>
        simp only [loopEvents, Bool.false_eq_true, if_false] at he
        rcases List.mem_append.mp he with he | he
        · simp only [List.mem_cons, List.not_mem_nil, or_false] at he
          rcases he with rfl | rfl | rfl | rfl | rfl
          · exact Or.inl rfl
          · exact Or.inr (Or.inl rfl)
          · exact Or.inr (Or.inr (Or.inl rfl))
          · exact Or.inr (Or.inr (Or.inr (Or.inl rfl)))
          · exact Or.inr (Or.inr (Or.inr (Or.inr (Or.inl rfl))))
        · cases createOk with
          | true =>
            simp only [if_pos] at he
            exact loopEvents_shape rest child e he
          | false =>
            simp only [Bool.false_eq_true, if_false] at he
            rcases List.mem_singleton.mp he with rfl
            exact Or.inr (Or.inr (Or.inr (Or.inr (Or.inr (Or.inr ⟨1, rfl⟩)))))

theorem recordUsage_not_mem_loopEvents (g : String) (its : List (Bool × Bool))
    (child : ChildOutcome) : DriverEvent.recordUsage g ∉ loopEvents its child := by
  intro hmem
  rcases loopEvents_shape its child _ hmem with h | h | h | h | h | h | ⟨c, h⟩ <;>
    cases h

theorem evict_not_mem_loopEvents (g : String) (its : List (Bool × Bool))
    (child : ChildOutcome) :
    DriverEvent.evictRemoveDir g ∉ loopEvents its child ∧
    DriverEvent.evictMarkDeleted g ∉ loopEvents its child := by
  constructor <;> intro hmem <;>
    rcases loopEvents_shape its child _ hmem with h | h | h | h | h | h | ⟨c, h⟩ <;>
    cases h

theorem recordUsage_not_mem_evictionEvents (g : String) (l : List String) :
    DriverEvent.recordUsage g ∉ evictionEvents l := by
  cases l with
  | nil => exact List.not_mem_nil _
  | cons f rest =>
    intro hmem
    rcases List.mem_cons.mp hmem with h | hmem
    · cases h
    · rcases List.mem_singleton.mp hmem with h
      cases h

theorem runPython_not_mem_evictionEvents (l : List String) :
    DriverEvent.runPython ∉ evictionEvents l := by
  cases l with
  | nil => exact List.not_mem_nil _
  | cons f rest =>
    intro hmem
    rcases List.mem_cons.mp hmem with h | hmem
    · cases h
    · rcases List.mem_singleton.mp hmem with h
      cases h

theorem upsert_stamps_le (rs : List Resource) (f : String) (now : Nat)
    (hnow : ∀ r ∈ rs, r.2 < now) : ∀ x ∈ upsert rs f now, x.2 ≤ now := by
  intro x hx
  unfold upsert at hx
  by_cases h : rs.any (fun r => r.1 == f)
  · rw [if_pos h] at hx
    rcases List.mem_map.mp hx with ⟨r, hr, hrx⟩
    by_cases hrf : (r.1 == f) = true
    · rw [if_pos hrf] at hrx
      rw [← hrx]
    · rw [if_neg hrf] at hrx
      exact Nat.le_of_lt (hrx ▸ hnow r hr)
  · rw [if_neg h] at hx
    rcases List.mem_append.mp hx with hx | hx
    · exact Nat.le_of_lt (hnow x hx)
    · rw [List.mem_singleton.mp hx]

/-- With distinct keys, a fingerprint's stored timestamp is unique. -/
theorem unique_stamp :
    ∀ (rs : List Resource), (keysOf rs).Nodup →
      ∀ {g : String} {t t' : Nat}, (g, t) ∈ rs → (g, t') ∈ rs → t = t'
  | [], _, _, _, _, h, _ => absurd h (List.not_mem_nil _)
  | r :: rest, hk, g, t, t', h1, h2 => by
      have hk' : (keysOf rest).Nodup ∧ r.1 ∉ keysOf rest := by
        have := List.nodup_cons.mp hk
        exact ⟨this.2, this.1⟩
      rcases List.mem_cons.mp h1 with he1 | h1 <;> rcases List.mem_cons.mp h2 with he2 | h2
      · rw [← he1] at he2
        exact (Prod.mk.injEq _ _ _ _ |>.mp he2).2.symm
      · exfalso
        apply hk'.2
        rw [← he1]
        exact List.mem_map.mpr ⟨(g, t'), h2, rfl⟩
      · exfalso
        apply hk'.2
        rw [← he2]
        exact List.mem_map.mpr ⟨(g, t), h1, rfl⟩
      · exact unique_stamp rest hk'.1 h1 h2

/-- The fingerprint just recorded is never in the evictable list the same
call returns (its rank is 1, and the capacity is at least 1). -/
theorem just_recorded_not_evictable (j : Journal) (f : String) (now : Nat)
    (hk : (keysOf j.resources).Nodup)
    (hst : (stampsOf j.resources).Nodup)
    (hnow : ∀ r ∈ j.resources, r.2 < now)
    (hcap : 1 ≤ j.maximum_resources) :
    f ∉ (j.record_usage f now).2 := by
  intro hmem
  have hsts := upsert_stamps_nodup j.resources f now hk hst hnow
  rcases List.mem_map.mp hmem with ⟨r, hr, hrf⟩
  have h1 := (mem_expiredRecords _ _ hsts r).mp hr
  have hknew := upsert_keys_nodup j.resources f now hk
  have hfnow := upsert_self_mem j.resources f now
  have hr' : (f, r.2) ∈ upsert j.resources f now := by
    have hr0 : r = (f, r.2) := by
      rw [← hrf]
    rw [← hr0]
    exact h1.1
  have hr2 : r.2 = now := unique_stamp _ hknew hr' hfnow
  have hle := upsert_stamps_le j.resources f now hnow
  have hcount : (upsert j.resources f now).countP (fun x => decide (r.2 < x.2)) = 0 := by
    rw [List.countP_eq_zero]
    intro x hx
    simp only [decide_eq_true_eq]
    rw [hr2]
    exact Nat.not_lt.mpr (hle x hx)
  have hrank := h1.2
  unfold rankIn at hrank
  rw [hcount] at hrank
  omega

/-- Any eviction event in a driver trace names a fingerprint returned by the
`record_usage` call of the same invocation. -/
theorem evict_event_from_record_output (s : DriverScenario) (f : String)
    (h : DriverEvent.evictRemoveDir f ∈ mainTrace s ∨
      DriverEvent.evictMarkDeleted f ∈ mainTrace s) :
    f ∈ (s.journal.record_usage s.shasum s.now).2 := by
  have hsplit : ∀ e, e ∈ mainTrace s →
      e ∈ ([DriverEvent.journalOpen, DriverEvent.readRequirements,
            DriverEvent.createRootDir, DriverEvent.recordUsage s.shasum] :
          List DriverEvent) ∨
      e ∈ evictionEvents (s.journal.record_usage s.shasum s.now).2 ∨
      e ∈ loopEvents s.iterations s.child := by
    intro e he
    unfold mainTrace at he
    rcases List.mem_append.mp he with he | he
    · rcases List.mem_append.mp he with he | he
      · exact Or.inl he
      · exact Or.inr (Or.inl he)
    · exact Or.inr (Or.inr he)
  have hout : ∀ g, (DriverEvent.evictRemoveDir g ∈
        evictionEvents (s.journal.record_usage s.shasum s.now).2 ∨
      DriverEvent.evictMarkDeleted g ∈
        evictionEvents (s.journal.record_usage s.shasum s.now).2) →
      g ∈ (s.journal.record_usage s.shasum s.now).2 := by
    intro g hg
    cases hev : (s.journal.record_usage s.shasum s.now).2 with
    | nil =>
      rw [hev] at hg
      rcases hg with hg | hg <;> exact absurd hg (List.not_mem_nil _)
    | cons f₀ rest =>
      rw [hev] at hg
      have hgf : g = f₀ := by
        rcases hg with hg | hg
        · rcases List.mem_cons.mp hg with h' | hg
          · injection h' with h''
          · have h' := List.mem_singleton.mp hg
            cases h'
        · rcases List.mem_cons.mp hg with h' | hg
          · cases h'
          · have h' := List.mem_singleton.mp hg
            injection h' with h''
      rw [hgf]
      exact List.mem_cons_self _ _
  rcases h with h | h
  · rcases hsplit _ h with hp | hp | hp
    · simp only [List.mem_cons, List.not_mem_nil, or_false] at hp
      rcases hp with h' | h' | h' | h' <;> cases h'
    · exact hout f (Or.inl hp)
    · exact absurd hp ((evict_not_mem_loopEvents f s.iterations s.child).1)
  · rcases hsplit _ h with hp | hp | hp
    · simp only [List.mem_cons, List.not_mem_nil, or_false] at hp
      rcases hp with h' | h' | h' | h' <;> cases h'
    · exact hout f (Or.inr hp)
    · exact absurd hp ((evict_not_mem_loopEvents f s.iterations s.child).2)

/-- C5, counterexample: the fingerprint the driver uses to name the
environment directory (`main.rs:44`) is not the identity-based digest of
`venv_sha`: at interpreter path `/usr/bin/python3` (whose `--version` output
is `Python 3.11.4\n`) and requirements `requests\n`, the two digests
differ — the driver hashes `"/usr/bin/python3":requests\n` (debug-quoted
path, colon, requirements) and never invokes the interpreter. -/
theorem driver_fingerprint_counterexample :
    mainShasum "/usr/bin/python3" "requests\n" ≠
      venv_sha (fun _ => "Python 3.11.4\n") "/usr/bin/python3" "requests\n" := by
  decide

/-- **C5 (amended).** `venv_sha` computes the lowercase-hex SHA-256 of
`"<identity>\n\n<requirements>"` with the identity obtained from the
interpreter, and equal (identity, requirements) pairs yield equal
fingerprints; the driver, however, names the environment directory by the
SHA-256 of the debug-formatted interpreter path, a colon, and the
requirements text, without invoking the interpreter — equal (path,
requirements) pairs yield equal directory names. -/
theorem fingerprint_determinism (pv₁ pv₂ : String → String) (p₁ p₂ r₁ r₂ : String)
    (hid : pv₁ p₁ = pv₂ p₂) (hr : r₁ = r₂) :
    (venv_sha pv₁ p₁ r₁ = venv_sha pv₂ p₂ r₂) ∧
    (p₁ = p₂ → mainShasum p₁ r₁ = mainShasum p₂ r₂) := by
  constructor
  · unfold venv_sha
    rw [hid, hr]
  · intro hp
    unfold mainShasum
    rw [hp, hr]

/-- Witness for C5: two different interpreter paths with the same
`--version` output and the same requirements get the same `venv_sha`
fingerprint. -/
theorem fingerprint_determinism_witness :
    venv_sha (fun _ => "Python 3.11.4\n") "/usr/bin/python" "requests\n" =
      venv_sha (fun _ => "Python 3.11.4\n") "/opt/python" "requests\n" :=
  (fingerprint_determinism (fun _ => "Python 3.11.4\n") (fun _ => "Python 3.11.4\n")
    "/usr/bin/python" "/opt/python" "requests\n" "requests\n" rfl rfl).1

/-- C6, counterexample: in the driver trace of a warm run (environment
present on the first try), `record_usage` is the event at index 3 and the
interpreter run is the event at index 5 — so it is false that `record_usage`
happens strictly after the run, as the claim states. -/
theorem driver_record_after_run_counterexample :
    ¬ (∀ (i j : Nat)
        (hi : i < (mainTrace ⟨⟨[], 50⟩, "f", 0, [(true, true)],
          ChildOutcome.exited 0⟩).length)
        (hj : j < (mainTrace ⟨⟨[], 50⟩, "f", 0, [(true, true)],
          ChildOutcome.exited 0⟩).length),
        (mainTrace ⟨⟨[], 50⟩, "f", 0, [(true, true)],
          ChildOutcome.exited 0⟩)[i] = DriverEvent.recordUsage "f" →
        (mainTrace ⟨⟨[], 50⟩, "f", 0, [(true, true)],
          ChildOutcome.exited 0⟩)[j] = DriverEvent.runPython → j < i) := by
  intro hclaim
  have h := hclaim 3 5 (by decide) (by decide) (by decide) (by decide)
  omega

/-- **C6 (amended).** In every driver invocation, `record_usage` for the
computed fingerprint happens strictly before any interpreter run and
strictly before every eviction event, and every eviction event happens
strictly before any interpreter run; usage is recorded whether or not the
run succeeds.  A just-used fingerprint is still never evicted in the same
invocation: every evicted fingerprint comes from the `record_usage` return
value, which never contains the fingerprint just recorded. -/
theorem driver_records_then_evicts_then_runs (s : DriverScenario)
    (hk : (keysOf s.journal.resources).Nodup)
    (hst : (stampsOf s.journal.resources).Nodup)
    (hnow : ∀ r ∈ s.journal.resources, r.2 < s.now)
    (hcap : 1 ≤ s.journal.maximum_resources) :
    (∀ (i j : Nat) (hi : i < (mainTrace s).length) (hj : j < (mainTrace s).length),
      (mainTrace s)[i] = DriverEvent.recordUsage s.shasum →
      (mainTrace s)[j] = DriverEvent.runPython → i < j) ∧
    (∀ (i j : Nat) (f : String)
      (hi : i < (mainTrace s).length) (hj : j < (mainTrace s).length),
      (mainTrace s)[i] = DriverEvent.recordUsage s.shasum →
      ((mainTrace s)[j] = DriverEvent.evictRemoveDir f ∨
       (mainTrace s)[j] = DriverEvent.evictMarkDeleted f) → i < j) ∧
    (∀ (i j : Nat) (f : String)
      (hi : i < (mainTrace s).length) (hj : j < (mainTrace s).length),
      ((mainTrace s)[i] = DriverEvent.evictRemoveDir f ∨
       (mainTrace s)[i] = DriverEvent.evictMarkDeleted f) →
      (mainTrace s)[j] = DriverEvent.runPython → i < j) ∧
    (∀ f : String, (DriverEvent.evictRemoveDir f ∈ mainTrace s ∨
       DriverEvent.evictMarkDeleted f ∈ mainTrace s) → f ≠ s.shasum) := by
  have hqrun : ∀ x ∈ ([DriverEvent.journalOpen, DriverEvent.readRequirements,
      DriverEvent.createRootDir, DriverEvent.recordUsage s.shasum] :
        List DriverEvent) ++ evictionEvents (s.journal.record_usage s.shasum s.now).2,
      ¬ x = DriverEvent.runPython := by
    intro x hx heq
    subst heq
    rcases List.mem_append.mp hx with hx | hx
    · simp only [List.mem_cons, List.not_mem_nil, or_false] at hx
      rcases hx with h | h | h | h <;> cases h
    · exact runPython_not_mem_evictionEvents _ hx
  refine ⟨?_, ?_, ?_, ?_⟩
  · intro i j hi hj hrec hrun
    exact pos_lt_pos_of_append
      ([DriverEvent.journalOpen, DriverEvent.readRequirements,
        DriverEvent.createRootDir, DriverEvent.recordUsage s.shasum] ++
        evictionEvents (s.journal.record_usage s.shasum s.now).2)
      (loopEvents s.iterations s.child)
      (fun e => e = DriverEvent.recordUsage s.shasum)
      (fun e => e = DriverEvent.runPython)
      (fun x hx heq => recordUsage_not_mem_loopEvents s.shasum s.iterations s.child
        (heq ▸ hx))
      hqrun i j hi hj hrec hrun
  · intro i j f hi hj hrec hev
    exact pos_lt_pos_of_append
      [DriverEvent.journalOpen, DriverEvent.readRequirements,
        DriverEvent.createRootDir, DriverEvent.recordUsage s.shasum]
      (evictionEvents (s.journal.record_usage s.shasum s.now).2 ++
        loopEvents s.iterations s.child)
      (fun e => e = DriverEvent.recordUsage s.shasum)
      (fun e => e = DriverEvent.evictRemoveDir f ∨ e = DriverEvent.evictMarkDeleted f)
      (fun x hx heq => by
        subst heq
        rcases List.mem_append.mp hx with hx | hx
        · exact recordUsage_not_mem_evictionEvents s.shasum _ hx
        · exact recordUsage_not_mem_loopEvents s.shasum s.iterations s.child hx)
      (fun x hx heq => by
        simp only [List.mem_cons, List.not_mem_nil, or_false] at hx
        rcases heq with heq | heq <;> subst heq <;>
          rcases hx with h | h | h | h <;> cases h)
      i j hi hj hrec hev
  · intro i j f hi hj hev hrun
    exact pos_lt_pos_of_append
      ([DriverEvent.journalOpen, DriverEvent.readRequirements,
        DriverEvent.createRootDir, DriverEvent.recordUsage s.shasum] ++
        evictionEvents (s.journal.record_usage s.shasum s.now).2)
      (loopEvents s.iterations s.child)
      (fun e => e = DriverEvent.evictRemoveDir f ∨ e = DriverEvent.evictMarkDeleted f)
      (fun e => e = DriverEvent.runPython)
      (fun x hx heq => by
        rcases heq with heq | heq <;> subst heq
        · exact (evict_not_mem_loopEvents f s.iterations s.child).1 hx
        · exact (evict_not_mem_loopEvents f s.iterations s.child).2 hx)
      hqrun i j hi hj hev hrun
  · intro f hf heq
    subst heq
    exact just_recorded_not_evictable s.journal s.shasum s.now hk hst hnow hcap
      (evict_event_from_record_output s s.shasum hf)

/-- Witness for C6: in a concrete warm-run scenario over a capacity-1
journal holding an older fingerprint, `record_usage` (index 3) precedes the
interpreter run (index 5). -/
theorem driver_records_then_evicts_then_runs_witness :
    (3 : Nat) < 7 :=
  (driver_records_then_evicts_then_runs
      ⟨⟨[("old", 0)], 1⟩, "new", 4, [(true, true)], ChildOutcome.exited 0⟩
      (by decide) (by decide) (by decide) (by decide)).1
    3 7 (by decide) (by decide) (by decide) (by decide)

/-- C9, counterexample: when the child interpreter cannot be launched, the
driver exits with code 1, not 127 as the claim states. -/
theorem run_python_spawn_failure_exit_counterexample :
    run_python_exit ChildOutcome.spawnFailure = 1 ∧
    run_python_exit ChildOutcome.spawnFailure ≠ 127 := ⟨rfl, by decide⟩

/-- **C9 (amended).** The process exits with the child's exit code verbatim
when the child exits normally, with exit code 127 when the child was
terminated by a signal, and with exit code 1 when the child could not be
launched or when no environment could be established within the retry
envelope (the five-try loop). -/
theorem run_python_exit_codes (c : Nat) (child : ChildOutcome) (b : Bool)
    (rest : List (Bool × Bool)) :
    run_python_exit (ChildOutcome.exited c) = c ∧
    run_python_exit ChildOutcome.signaled = 127 ∧
    run_python_exit ChildOutcome.spawnFailure = 1 ∧
    loopEvents ((true, b) :: rest) child =
      [DriverEvent.acquireRead, DriverEvent.runPython,
       DriverEvent.exitProcess (run_python_exit child)] ∧
    loopEvents [] child = [DriverEvent.exitProcess 1] :=
  ⟨rfl, rfl, rfl, rfl, rfl⟩

end Venvcache
